import Mathlib

set_option maxHeartbeats 1000000

/-!
Shallow embedding of the cleanup_mcatts data-cleaning pipeline:

  - remove_accents.py          : accent stripping over text, CSV streaming
  - remove_statenm_column.py   : column pruning
  - update_legislator_data.py  : the combined three-step pipeline

Text is modelled as a list of Unicode codepoints.  The behaviour of
unicodedata.normalize with form NFKD and of unicodedata.combining is
modelled over a representative universe of codepoints: a table of
precomposed Latin letters (which decompose into base letter plus
combining mark) and the fi ligature U+FB01 (whose compatibility
decomposition is the two letters f i), faithful to the Unicode character
data for those codepoints, and the identity elsewhere.  Combining marks
produced by these decompositions all lie in the Combining Diacritical
Marks block U+0300 - U+036F.

Tables (pandas DataFrames) are modelled as a header (list of column
names) together with a list of rows, each row an association list from
column name to cell value; a cell value is text, a number, or the
missing marker (NaN).  Reading an absent column yields the missing
marker; pandas .at-style assignment to an absent column appends the
column at the end of the header, which matches pandas enlargement
semantics.
-/

namespace Mcatts

/-- A Python str as its sequence of Unicode codepoints. -/
abbrev Str := List Nat

/-- NFKD decomposition data for the modelled codepoints, taken from the
Unicode character database: precomposed Latin-1 letters decompose into a
base letter followed by a combining mark, and the fi ligature U+FB01 has
the compatibility decomposition f i.  Codepoints outside the table
(plain ASCII, the combining marks themselves, and letters such as
U+00F8 that have no decomposition) are NFKD-atomic. -/
def nfkdTable : List (Nat × List Nat) :=
  [ (0xE9, [0x65, 0x301]), (0xC9, [0x45, 0x301]),
    (0xE8, [0x65, 0x300]), (0xC8, [0x45, 0x300]),
    (0xF6, [0x6F, 0x308]), (0xD6, [0x4F, 0x308]),
    (0xE7, [0x63, 0x327]), (0xC7, [0x43, 0x327]),
    (0xE5, [0x61, 0x30A]), (0xC5, [0x41, 0x30A]),
    (0xF1, [0x6E, 0x303]), (0xD1, [0x4E, 0x303]),
    (0xFB01, [0x66, 0x69]) ]

/-- Decomposition of a single codepoint: the table entry when present,
otherwise the codepoint itself (NFKD-atomic). -/
def nfkdChar (c : Nat) : List Nat :=
  (nfkdTable.lookup c).getD [c]

/-- Model of unicodedata.normalize with form NFKD on a whole string:
concatenation of the per-codepoint decompositions. -/
def nfkd (s : Str) : Str :=
  s.flatMap nfkdChar

/-- Model of unicodedata.combining c being nonzero: the modelled
combining marks are exactly the Combining Diacritical Marks block. -/
def combining (c : Nat) : Bool :=
  decide (0x300 ≤ c ∧ c < 0x370)

namespace RemoveAccents

/-- remove_accents from remove_accents.py lines 7-25: NFKD-normalize the
text, then keep exactly the characters that are not combining marks. -/
def remove_accents (text : Str) : Str :=
  (nfkd text).filter fun c => !combining c

end RemoveAccents

/-- A cell value after pandas read_csv: text, a number, or missing (NaN). -/
inductive Value where
  | str (s : Str)
  | num (n : Int)
  | missing
deriving DecidableEq, Repr

/-- Whether a cell value is text, modelling isinstance(text, str). -/
def Value.isText : Value → Bool
  | .str _ => true
  | _ => false

/-- A table row: an association list from column name to cell value. -/
abbrev Row := List (String × Value)

/-- Reading a cell; an absent column reads as the missing marker. -/
def getCell : Row → String → Value
  | [], _ => .missing
  | (k, v) :: r, c => if k = c then v else getCell r c

/-- Writing a cell: replace the value in place if the column is present,
otherwise append the new column at the end of the row. -/
def setCell : Row → String → Value → Row
  | [], c, v => [(c, v)]
  | (k, w) :: r, c, v => if k = c then (c, v) :: r else (k, w) :: setCell r c v

/-- Membership of a column label in a row, modelling the Python
expression (label in series). -/
def hasCol (r : Row) (c : String) : Bool :=
  r.any fun p => decide (p.1 = c)

/-- A DataFrame: a header of column names plus the list of rows. -/
structure DF where
  cols : List String
  rows : List Row
deriving DecidableEq, Repr

namespace UpdateLegislator

/-- remove_accents from update_legislator_data.py lines 8-28: non-text
values are returned unchanged (the isinstance guard); text is
NFKD-normalized and stripped of combining marks.  The decomposition
model is total, so the except branch of the source is unreachable and
the function never fails. -/
def remove_accents : Value → Value
  | .str s => .str ((nfkd s).filter fun c => !combining c)
  | v => v

/-- All legislator rows whose icpsr and congress cells equal the looked
up key, in table order: the rows that legislators_df.loc returns for
the composite key after set_index on icpsr and congress.  Values are
compared as typed values. -/
def legMatches (legs : List Row) (idv congv : Value) : List Row :=
  legs.filter fun r =>
    decide (getCell r "icpsr" = idv) && decide (getCell r "congress" = congv)

/-- One pandas .at assignment df.at[i, c] = v: the row at index i gets
the cell written; a column absent from the header is appended at the
end of the header (pandas setting with enlargement). -/
def dfAt (df : DF) (i : Nat) (c : String) (v : Value) : DF :=
  { cols := if c ∈ df.cols then df.cols else df.cols ++ [c]
    rows := df.rows.set i (setCell (df.rows.getD i []) c v) }

/-- One iteration of the Step 1 loop of update_legislator_data.py lines
62-83, at row index i: look the row key (id, cong) up in the
legislators table; on a hit take the first matching row (match.iloc[0]
when several rows share the key) and assign mc.name, state, and, when
the match carries it, statenm; on a miss append the (id, cong, mc.name)
triple to the non-match list. -/
def step1Iter (legs : List Row) (st : DF × List (Value × Value × Value))
    (i : Nat) : DF × List (Value × Value × Value) :=
  let df := st.1
  let row := df.rows.getD i []
  let idv := getCell row "id"
  let congv := getCell row "cong"
  match legMatches legs idv congv with
  | [] => (df, st.2 ++ [(idv, congv, getCell row "mc.name")])
  | m :: _ =>
    let d1 := dfAt df i "mc.name" (getCell m "bioname")
    let d2 := dfAt d1 i "state" (getCell m "state_abbrev")
    let d3 := if hasCol m "statenm" then dfAt d2 i "statenm" (getCell m "statenm")
              else d2
    (d3, st.2)

/-- Step 1 of the pipeline: iterate the loop body over every row index
of the mcatts table in order, threading the updated table and the
accumulated non-match list. -/
def step1 (legs : List Row) (df : DF) : DF × List (Value × Value × Value) :=
  (List.range df.rows.length).foldl (step1Iter legs) (df, [])

/-- Step 2 of the pipeline, update_legislator_data.py line 104:
DataFrame.applymap(remove_accents), applied cell-wise; the header is
unchanged. -/
def applymapRemoveAccents (df : DF) : DF :=
  { cols := df.cols
    rows := df.rows.map fun r => r.map fun p => (p.1, remove_accents p.2) }

/-- Dropping a column: remove it from the header and from every row. -/
def dropColumn (df : DF) (c : String) : DF :=
  { cols := df.cols.erase c
    rows := df.rows.map fun r => r.filter fun p => !decide (p.1 = c) }

/-- Step 3 of the pipeline, update_legislator_data.py lines 109-116: if
the statenm column is absent, warn (the Bool is true) and leave the
table unchanged; otherwise drop the column.  Never an error. -/
def step3 (df : DF) : DF × Bool :=
  if "statenm" ∈ df.cols then (dropColumn df "statenm", false)
  else (df, true)

/-- The in-memory table transform of process_legislator_pipeline: Step 1
(match and override, collecting non-matches), then Step 2 (accent
removal on every cell), then Step 3 (prune statenm). -/
def pipelineTable (mcatts : DF) (legs : List Row) :
    DF × List (Value × Value × Value) :=
  let s1 := step1 legs mcatts
  let s2 := applymapRemoveAccents s1.1
  let s3 := (step3 s2).1
  (s3, s1.2)

/-- Per-row restatement of one Step 1 iteration on the row it touches;
proved below to characterize the fold. -/
def updateRow (legs : List Row) (r : Row) : Row :=
  match legMatches legs (getCell r "id") (getCell r "cong") with
  | [] => r
  | m :: _ =>
    let r1 := setCell r "mc.name" (getCell m "bioname")
    let r2 := setCell r1 "state" (getCell m "state_abbrev")
    if hasCol m "statenm" then setCell r2 "statenm" (getCell m "statenm") else r2

/-- Per-row restatement of the non-match record a Step 1 iteration
appends, when it appends one. -/
def rowNonMatch (legs : List Row) (r : Row) : Option (Value × Value × Value) :=
  match legMatches legs (getCell r "id") (getCell r "cong") with
  | [] => some (getCell r "id", getCell r "cong", getCell r "mc.name")
  | _ :: _ => none

end UpdateLegislator

namespace RemoveStatenm

/-- remove_statenm_column from remove_statenm_column.py lines 6-34 as a
table transform: when the statenm column is absent the function warns
and returns early, so no output table is produced (none); otherwise the
column is dropped and the result saved. -/
def remove_statenm_column (df : DF) : Option DF :=
  if "statenm" ∈ df.cols then some (UpdateLegislator.dropColumn df "statenm")
  else none

end RemoveStatenm

/-- An input or output action on the files of a run, used to state when
output is written relative to the reads that drive processing. -/
inductive Ev where
  | readRow (r : List Str)
  | writeRow (r : List Str)
  | readTable (t : DF)
  | writeTable (t : DF)
deriving DecidableEq

/-- Whether an event is a write of output. -/
def Ev.isWrite : Ev → Bool
  | .writeRow _ => true
  | .writeTable _ => true
  | _ => false

/-- A trace is buffered when no read happens after any write: all the
output is written only once every input row has been consumed. -/
def buffered : List Ev → Bool
  | [] => true
  | e :: rest => if e.isWrite then rest.all Ev.isWrite else buffered rest

/-- The rows written by a trace, in order. -/
def writtenRows : List Ev → List (List Str)
  | [] => []
  | .writeRow r :: rest => r :: writtenRows rest
  | _ :: rest => writtenRows rest

namespace RemoveAccents

/-- Event trace of process_csv, remove_accents.py lines 35-50: the loop
reads one row, strips accents from each field, and immediately writes
the processed row before reading the next one (writer.writerow inside
the loop). -/
def process_csv_events (rows : List (List Str)) : List Ev :=
  rows.flatMap fun r => [Ev.readRow r, Ev.writeRow (r.map remove_accents)]

end RemoveAccents

namespace UpdateLegislator

/-- Event trace of process_legislator_pipeline: both input tables are
read first, every stage runs in memory, and a single write of the fully
processed table ends the run (to_csv at line 120 only). -/
def pipeline_events (mcatts : DF) (legs : List Row) : List Ev :=
  [ Ev.readTable mcatts,
    Ev.readTable { cols := [], rows := legs },
    Ev.writeTable (pipelineTable mcatts legs).1 ]

end UpdateLegislator

/-!  Concrete tables used by the closed counterexample and witness
theorems below.  Codepoints: 0x41 A, 0x42 B, 0x43 C, 0x44 D, 0x45 E,
0x58 X, 0x59 Y, 0x5A Z, 0x54 T. -/

/-- A legislators table in which two rows carry the same composite key
(icpsr 1, congress 103) but different bioname and state_abbrev. -/
def legsDup : List Row :=
  [ [("icpsr", .num 1), ("congress", .num 103),
     ("bioname", .str [0x41]), ("state_abbrev", .str [0x58])],
    [("icpsr", .num 1), ("congress", .num 103),
     ("bioname", .str [0x42]), ("state_abbrev", .str [0x59])] ]

/-- A one-row mcatts table whose single row has the duplicated key. -/
def mcattsOne : DF :=
  { cols := ["id", "cong", "mc.name", "state"]
    rows := [[("id", .num 1), ("cong", .num 103),
              ("mc.name", .str [0x43]), ("state", .str [0x5A])]] }

/-- A legislators table whose single row carries a statenm column. -/
def legsSt : List Row :=
  [ [("icpsr", .num 1), ("congress", .num 103), ("bioname", .str [0x41]),
     ("state_abbrev", .str [0x58]), ("statenm", .str [0x54, 0x58])] ]

/-- A two-row mcatts table with no statenm column; row 0 has the key
(1, 103) matched by legsSt, row 1 has the unmatched key (3, 103). -/
def mcattsTwo : DF :=
  { cols := ["id", "cong", "mc.name", "state"]
    rows := [ [("id", .num 1), ("cong", .num 103),
               ("mc.name", .str [0x43]), ("state", .str [0x5A])],
              [("id", .num 3), ("cong", .num 103),
               ("mc.name", .str [0x44]), ("state", .str [0x5A])] ] }

/-- A three-column table with statenm present, for the pruning claims. -/
def dfWithStatenm : DF :=
  { cols := ["id", "statenm", "state"]
    rows := [ [("id", .num 1), ("statenm", .str [0x54]), ("state", .str [0x58])],
              [("id", .num 2), ("statenm", .str [0x55]), ("state", .str [0x59])] ] }

/-!  Helper lemmas about the modelled Unicode data. -/

/-- Membership extraction for association-list lookup. -/
theorem lookup_mem : ∀ {l : List (Nat × List Nat)} {c : Nat} {v : List Nat},
    l.lookup c = some v → (c, v) ∈ l := by
  intro l
  induction l with
  | nil => intro c v h; simp [List.lookup] at h
  | cons p t ih =>
    intro c v h
    obtain ⟨k, b⟩ := p
    by_cases hk : c == k
    · simp only [List.lookup, hk] at h
      cases h
      have hck : c = k := eq_of_beq hk
      subst hck
      exact List.mem_cons_self _ _
    · simp only [List.lookup, Bool.eq_false_iff.mpr hk] at h
      exact List.mem_cons_of_mem _ (ih h)

/-- Every codepoint produced by a table decomposition is itself outside
the table, hence NFKD-atomic: the modelled decomposition data is fully
decomposed, as the Unicode data guarantees for NFKD. -/
theorem nfkdTable_sound :
    ∀ p ∈ nfkdTable, ∀ d ∈ p.2, nfkdTable.lookup d = none := by decide

/-- Characters in the image of the single-character decomposition are
NFKD-atomic. -/
theorem nfkdChar_mem_atomic {c d : Nat} (h : d ∈ nfkdChar c) : nfkdChar d = [d] := by
  unfold nfkdChar at h ⊢
  cases hl : nfkdTable.lookup c with
  | none =>
    rw [hl] at h
    simp only [Option.getD_none, List.mem_singleton] at h
    subst h
    rw [hl]
    rfl
  | some v =>
    rw [hl] at h
    simp only [Option.getD_some] at h
    rw [nfkdTable_sound (c, v) (lookup_mem hl) d h]
    rfl

/-- Decomposition is the identity on lists of NFKD-atomic codepoints. -/
theorem flatMap_nfkdChar_atomic {l : List Nat} (h : ∀ d ∈ l, nfkdChar d = [d]) :
    l.flatMap nfkdChar = l := by
  induction l with
  | nil => rfl
  | cons a t ih =>
    rw [List.flatMap_cons, h a (List.mem_cons_self a t),
      ih fun d hd => h d (List.mem_cons_of_mem a hd)]
    rfl

/-- CLAIM C2 (counterexample): the precomposed letter é (U+00E9) is not
a combining mark, so the text consisting of that single character
contains no combining marks, yet normalize rewrites it to the plain
letter e (U+0065): normalize does not leave every non-combining-mark
character unchanged, and normalize(T) = T fails for a combining-mark-free
T. -/
theorem c2_counterexample :
    (∀ c ∈ ([0xE9] : Str), combining c = false)
    ∧ RemoveAccents.remove_accents [0xE9] = [0x65]
    ∧ UpdateLegislator.remove_accents (.str [0xE9]) = .str [0x65]
    ∧ ([0x65] : Str) ≠ [0xE9] := by decide

/-- CLAIM C2 (amended): on text every character of which is NFKD-atomic,
normalize removes exactly the combining marks and leaves every other
character unchanged in place; in particular on NFKD-atomic text with no
combining marks, normalize is the identity, for both copies of
remove_accents. -/
theorem c2_remove_accents_plain (s : Str) (h : ∀ c ∈ s, nfkdChar c = [c]) :
    RemoveAccents.remove_accents s = s.filter (fun c => !combining c)
    ∧ ((∀ c ∈ s, combining c = false) →
        RemoveAccents.remove_accents s = s
        ∧ UpdateLegislator.remove_accents (.str s) = .str s) := by
  have hfm : nfkd s = s := flatMap_nfkdChar_atomic h
  have hbase : RemoveAccents.remove_accents s = s.filter (fun c => !combining c) := by
    unfold RemoveAccents.remove_accents
    rw [hfm]
  refine ⟨hbase, fun hc => ?_⟩
  have hid : RemoveAccents.remove_accents s = s := by
    rw [hbase]
    exact List.filter_eq_self.mpr fun a ha => by rw [hc a ha]; rfl
  refine ⟨hid, ?_⟩
  show Value.str ((nfkd s).filter fun c => !combining c) = Value.str s
  rw [show ((nfkd s).filter fun c => !combining c) = RemoveAccents.remove_accents s from rfl, hid]

/-- CLAIM C2 (witness): the amended statement applied to the plain text
Cafe, which is NFKD-atomic and combining-mark free. -/
theorem c2_witness :
    (∀ c ∈ ([0x43, 0x61, 0x66, 0x65] : Str), nfkdChar c = [c])
    ∧ RemoveAccents.remove_accents [0x43, 0x61, 0x66, 0x65] = [0x43, 0x61, 0x66, 0x65] :=
  ⟨by decide,
    ((c2_remove_accents_plain [0x43, 0x61, 0x66, 0x65] (by decide)).2 (by decide)).1⟩

/-- CLAIM C4: accent-stripping normalization is idempotent, both on
arbitrary cell values (update_legislator_data.py) and on plain text
(remove_accents.py): applying it twice equals applying it once. -/
theorem c4_normalize_idempotent :
    (∀ v : Value, UpdateLegislator.remove_accents (UpdateLegislator.remove_accents v)
        = UpdateLegislator.remove_accents v)
    ∧ ∀ s : Str, RemoveAccents.remove_accents (RemoveAccents.remove_accents s)
        = RemoveAccents.remove_accents s := by
  have hs : ∀ s : Str, RemoveAccents.remove_accents (RemoveAccents.remove_accents s)
      = RemoveAccents.remove_accents s := by
    intro s
    have hmem : ∀ d ∈ RemoveAccents.remove_accents s, nfkdChar d = [d] := by
      intro d hd
      have hd2 : d ∈ nfkd s := List.mem_of_mem_filter hd
      obtain ⟨c, _, hc⟩ := List.mem_flatMap.mp hd2
      exact nfkdChar_mem_atomic hc
    show (nfkd (RemoveAccents.remove_accents s)).filter (fun c => !combining c)
        = RemoveAccents.remove_accents s
    unfold nfkd
    rw [flatMap_nfkdChar_atomic hmem]
    refine List.filter_eq_self.mpr fun a ha => ?_
    have ha2 : a ∈ List.filter (fun c => !combining c) (nfkd s) := ha
    exact (List.mem_filter.mp ha2).2
  refine ⟨fun v => ?_, hs⟩
  cases v with
  | str s => exact congrArg Value.str (hs s)
  | num n => rfl
  | missing => rfl

/-- CLAIM C7: the cell-value normalizer of update_legislator_data.py is
total on arbitrary cell values and returns every non-text value
unchanged; being a total function of the embedding, it never fails. -/
theorem c7_remove_accents_total (v : Value) (h : v.isText = false) :
    UpdateLegislator.remove_accents v = v := by
  cases v with
  | str s => simp [Value.isText] at h
  | num n => rfl
  | missing => rfl

/-- CLAIM C7 (witness): a numeric cell and the missing marker pass
through unchanged. -/
theorem c7_witness :
    (Value.num 5).isText = false
    ∧ UpdateLegislator.remove_accents (Value.num 5) = Value.num 5 :=
  ⟨by decide, c7_remove_accents_total (Value.num 5) (by decide)⟩

/-!  Generic list lemmas used to characterize the Step 1 loop. -/

/-- Reading an appended list right after the first part. -/
theorem getD_append_length {α : Type} (A B : List α) (d : α) :
    (A ++ B).getD A.length d = B.getD 0 d := by
  induction A with
  | nil => rfl
  | cons a t ih =>
    simp only [List.cons_append, List.length_cons, List.getD_cons_succ]
    exact ih

/-- Splitting off the element at a valid index from the tail. -/
theorem drop_eq_getD_cons {α : Type} :
    ∀ (l : List α) (k : Nat) (d : α), k < l.length →
      l.drop k = l.getD k d :: l.drop (k + 1) := by
  intro l
  induction l with
  | nil => intro k d h; exact absurd h (Nat.not_lt_zero k)
  | cons a t ih =>
    intro k d h
    cases k with
    | zero => rfl
    | succ k =>
      simp only [List.drop_succ_cons, List.getD_cons_succ]
      exact ih k d (Nat.lt_of_succ_lt_succ h)

/-- Setting the position right after the first part of an append. -/
theorem set_append_length {α : Type} (A B : List α) (x : α) :
    (A ++ B).set A.length x = A ++ B.set 0 x := by
  induction A with
  | nil => rfl
  | cons a t ih =>
    simp only [List.cons_append, List.length_cons, List.set_cons_succ]
    exact congrArg (a :: ·) ih

/-- Reading back a value just written at a valid index. -/
theorem getD_set_self {α : Type} :
    ∀ (l : List α) (k : Nat) (x d : α), k < l.length → (l.set k x).getD k d = x := by
  intro l
  induction l with
  | nil => intro k x d h; exact absurd h (Nat.not_lt_zero k)
  | cons a t ih =>
    intro k x d h
    cases k with
    | zero => rfl
    | succ k =>
      simp only [List.set_cons_succ, List.getD_cons_succ]
      exact ih k x d (Nat.lt_of_succ_lt_succ h)

/-- Writing at a valid index the value already there changes nothing. -/
theorem set_getD_self {α : Type} :
    ∀ (l : List α) (k : Nat) (d : α), k < l.length → l.set k (l.getD k d) = l := by
  intro l
  induction l with
  | nil => intro k d h; exact absurd h (Nat.not_lt_zero k)
  | cons a t ih =>
    intro k d h
    cases k with
    | zero => rfl
    | succ k =>
      simp only [List.getD_cons_succ, List.set_cons_succ]
      exact congrArg (a :: ·) (ih k d (Nat.lt_of_succ_lt_succ h))

/-- Extending a take by one element at a valid index. -/
theorem take_succ_getD {α : Type} :
    ∀ (l : List α) (k : Nat) (d : α), k < l.length →
      l.take (k + 1) = l.take k ++ [l.getD k d] := by
  intro l
  induction l with
  | nil => intro k d h; exact absurd h (Nat.not_lt_zero k)
  | cons a t ih =>
    intro k d h
    cases k with
    | zero => rfl
    | succ k =>
      simp only [List.take_succ_cons, List.getD_cons_succ, List.cons_append]
      exact congrArg (a :: ·) (ih k d (Nat.lt_of_succ_lt_succ h))

/-- Reading through a map of rows at a valid index. -/
theorem getD_map_row (l : List Row) (f : Row → Row) (i : Nat) (h : i < l.length) :
    (l.map f).getD i [] = f (l.getD i []) := by
  induction l generalizing i with
  | nil => exact absurd h (Nat.not_lt_zero i)
  | cons a t ih =>
    cases i with
    | zero => rfl
    | succ i =>
      simp only [List.map_cons, List.getD_cons_succ]
      exact ih i (Nat.lt_of_succ_lt_succ h)

/-!  Cell-level lemmas about reading and writing rows. -/

/-- Reading the cell just written. -/
theorem getCell_setCell_same (r : Row) (c : String) (v : Value) :
    getCell (setCell r c v) c = v := by
  induction r with
  | nil => simp [setCell, getCell]
  | cons p t ih =>
    obtain ⟨k, w⟩ := p
    by_cases hk : k = c
    · simp [setCell, getCell, hk]
    · simp [setCell, getCell, hk, ih]

/-- Writing one cell leaves every other cell unchanged. -/
theorem getCell_setCell_other (r : Row) (c c2 : String) (v : Value) (h : c2 ≠ c) :
    getCell (setCell r c v) c2 = getCell r c2 := by
  induction r with
  | nil =>
    simp only [setCell, getCell]
    rw [if_neg fun hh : c = c2 => h hh.symm]
  | cons p t ih =>
    obtain ⟨k, w⟩ := p
    by_cases hk : k = c
    · simp only [setCell, if_pos hk, getCell]
      rw [if_neg (fun hh : c = c2 => h hh.symm), if_neg (fun hh : k = c2 => h (hh.symm.trans hk))]
    · simp only [setCell, if_neg hk, getCell]
      by_cases hk2 : k = c2
      · rw [if_pos hk2, if_pos hk2]
      · rw [if_neg hk2, if_neg hk2]
        exact ih

/-- Dropping one column of a row leaves every other cell unchanged. -/
theorem getCell_filter_other (r : Row) (c0 c : String) (h : c ≠ c0) :
    getCell (r.filter fun p => !decide (p.1 = c0)) c = getCell r c := by
  induction r with
  | nil => rfl
  | cons p t ih =>
    obtain ⟨k, w⟩ := p
    by_cases hk : k = c0
    · have hpa : (!decide ((k, w).1 = c0)) = false := by
        simp [hk]
      simp only [List.filter_cons, hpa]
      rw [if_neg Bool.false_ne_true, ih]
      simp only [getCell]
      rw [if_neg (fun hh : k = c => h (hh.symm.trans hk))]
    · have hpa : (!decide ((k, w).1 = c0)) = true := by
        simp [hk]
      simp only [List.filter_cons, hpa, if_pos rfl]
      simp only [getCell]
      by_cases hk2 : k = c
      · rw [if_pos hk2, if_pos hk2]
      · rw [if_neg hk2, if_neg hk2]
        exact ih

/-!  Characterization of the Step 1 loop as a per-row map. -/

/-- Rows after a single pandas-style cell assignment. -/
theorem dfAt_rows (df : DF) (i : Nat) (c : String) (v : Value) :
    (UpdateLegislator.dfAt df i c v).rows
      = df.rows.set i (setCell (df.rows.getD i []) c v) := rfl

/-- Rows after two chained cell assignments to the same row. -/
theorem dfAt_dfAt_rows (df : DF) (i : Nat) (c1 : String) (v1 : Value)
    (c2 : String) (v2 : Value) (h : i < df.rows.length) :
    (UpdateLegislator.dfAt (UpdateLegislator.dfAt df i c1 v1) i c2 v2).rows
      = df.rows.set i (setCell (setCell (df.rows.getD i []) c1 v1) c2 v2) := by
  rw [dfAt_rows, dfAt_rows, getD_set_self df.rows i _ [] h, List.set_set]

/-- Rows after three chained cell assignments to the same row. -/
theorem dfAt_dfAt_dfAt_rows (df : DF) (i : Nat) (c1 : String) (v1 : Value)
    (c2 : String) (v2 : Value) (c3 : String) (v3 : Value) (h : i < df.rows.length) :
    (UpdateLegislator.dfAt (UpdateLegislator.dfAt (UpdateLegislator.dfAt df i c1 v1) i c2 v2)
        i c3 v3).rows
      = df.rows.set i (setCell (setCell (setCell (df.rows.getD i []) c1 v1) c2 v2) c3 v3) := by
  rw [dfAt_rows, dfAt_dfAt_rows df i c1 v1 c2 v2 h,
    getD_set_self df.rows i _ [] h, List.set_set]

/-- One loop iteration at a valid index writes exactly the per-row
update into that row and appends exactly the per-row non-match record. -/
theorem step1Iter_spec (legs : List Row) (st : DF × List (Value × Value × Value))
    (i : Nat) (h : i < st.1.rows.length) :
    (UpdateLegislator.step1Iter legs st i).1.rows
        = st.1.rows.set i (UpdateLegislator.updateRow legs (st.1.rows.getD i []))
    ∧ (UpdateLegislator.step1Iter legs st i).2
        = st.2 ++ (UpdateLegislator.rowNonMatch legs (st.1.rows.getD i [])).toList := by
  cases hm : UpdateLegislator.legMatches legs (getCell (st.1.rows.getD i []) "id")
      (getCell (st.1.rows.getD i []) "cong") with
  | nil =>
    constructor
    · simp only [UpdateLegislator.step1Iter, UpdateLegislator.updateRow, hm]
      exact (set_getD_self st.1.rows i [] h).symm
    · simp only [UpdateLegislator.step1Iter, UpdateLegislator.rowNonMatch, hm,
        Option.toList_some]
  | cons m rest =>
    constructor
    · simp only [UpdateLegislator.step1Iter, UpdateLegislator.updateRow, hm]
      cases hst : hasCol m "statenm" with
      | false =>
        rw [if_neg Bool.false_ne_true, if_neg Bool.false_ne_true]
        exact dfAt_dfAt_rows st.1 i "mc.name" (getCell m "bioname")
          "state" (getCell m "state_abbrev") h
      | true =>
        rw [if_pos rfl, if_pos rfl]
        exact dfAt_dfAt_dfAt_rows st.1 i "mc.name" (getCell m "bioname")
          "state" (getCell m "state_abbrev") "statenm" (getCell m "statenm") h
    · simp only [UpdateLegislator.step1Iter, UpdateLegislator.rowNonMatch, hm,
        Option.toList_none, List.append_nil]

/-- Invariant of the Step 1 loop: after the first k iterations the first
k rows are the per-row updates and the rest are untouched, and the
non-match list is exactly the per-row records of the first k rows. -/
theorem step1_loop_spec (legs : List Row) (df : DF) :
    ∀ k, k ≤ df.rows.length →
      ((List.range k).foldl (UpdateLegislator.step1Iter legs) (df, [])).1.rows
          = (df.rows.take k).map (UpdateLegislator.updateRow legs) ++ df.rows.drop k
      ∧ ((List.range k).foldl (UpdateLegislator.step1Iter legs) (df, [])).2
          = (df.rows.take k).filterMap (UpdateLegislator.rowNonMatch legs) := by
  intro k
  induction k with
  | zero => intro _; simp
  | succ k ih =>
    intro hk
    have hklt : k < df.rows.length := hk
    obtain ⟨h1, h2⟩ := ih (Nat.le_of_succ_le hk)
    rw [List.range_succ, List.foldl_append, List.foldl_cons, List.foldl_nil]
    set st := (List.range k).foldl (UpdateLegislator.step1Iter legs) (df, []) with hst
    have hlenA : ((df.rows.take k).map (UpdateLegislator.updateRow legs)).length = k := by
      rw [List.length_map, List.length_take]
      exact Nat.min_eq_left (Nat.le_of_succ_le hk)
    have hlen : st.1.rows.length = df.rows.length := by
      rw [h1, List.length_append, hlenA, List.length_drop]
      exact Nat.add_sub_cancel' (Nat.le_of_succ_le hk)
    have hrowk : st.1.rows.getD k [] = df.rows.getD k [] := by
      rw [h1]
      have := getD_append_length ((df.rows.take k).map (UpdateLegislator.updateRow legs))
        (df.rows.drop k) []
      rw [hlenA] at this
      rw [this, drop_eq_getD_cons df.rows k [] hklt]
      rfl
    obtain ⟨hr, hn⟩ := step1Iter_spec legs st k (by rw [hlen]; exact hklt)
    constructor
    · rw [hr, hrowk, h1, drop_eq_getD_cons df.rows k [] hklt]
      have hset := set_append_length ((df.rows.take k).map (UpdateLegislator.updateRow legs))
        (df.rows.getD k [] :: df.rows.drop (k + 1))
        (UpdateLegislator.updateRow legs (df.rows.getD k []))
      rw [hlenA] at hset
      rw [hset]
      rw [take_succ_getD df.rows k [] hklt, List.map_append, List.append_assoc]
      rfl
    · rw [hn, hrowk, h2, take_succ_getD df.rows k [] hklt, List.filterMap_append]
      have hone : List.filterMap (UpdateLegislator.rowNonMatch legs) [df.rows.getD k []]
          = (UpdateLegislator.rowNonMatch legs (df.rows.getD k [])).toList := by
        rw [List.filterMap_cons]
        cases hc : UpdateLegislator.rowNonMatch legs (df.rows.getD k []) <;> rfl
      rw [hone]

/-- Step 1 maps every row through the per-row update, in order, and
collects exactly the per-row non-match records, in order. -/
theorem step1_spec (legs : List Row) (df : DF) :
    (UpdateLegislator.step1 legs df).1.rows
        = df.rows.map (UpdateLegislator.updateRow legs)
    ∧ (UpdateLegislator.step1 legs df).2
        = df.rows.filterMap (UpdateLegislator.rowNonMatch legs) := by
  obtain ⟨h1, h2⟩ := step1_loop_spec legs df df.rows.length (Nat.le_refl _)
  unfold UpdateLegislator.step1
  rw [h1, h2, List.take_length, List.drop_length, List.append_nil]
  exact ⟨rfl, rfl⟩

/-- Cell-level description of the per-row update on a matched row: the
three mapped columns are overwritten from the reference row (statenm
only when the reference row carries it) and every other cell is kept. -/
theorem updateRow_matched (legs : List Row) (r m : Row) (rest : List Row)
    (hm : UpdateLegislator.legMatches legs (getCell r "id") (getCell r "cong")
        = m :: rest) :
    getCell (UpdateLegislator.updateRow legs r) "mc.name" = getCell m "bioname"
    ∧ getCell (UpdateLegislator.updateRow legs r) "state" = getCell m "state_abbrev"
    ∧ (hasCol m "statenm" = true →
        getCell (UpdateLegislator.updateRow legs r) "statenm" = getCell m "statenm")
    ∧ (hasCol m "statenm" = false →
        getCell (UpdateLegislator.updateRow legs r) "statenm" = getCell r "statenm")
    ∧ ∀ c, c ≠ "mc.name" → c ≠ "state" → c ≠ "statenm" →
        getCell (UpdateLegislator.updateRow legs r) c = getCell r c := by
  simp only [UpdateLegislator.updateRow, hm]
  cases hst : hasCol m "statenm" with
  | false =>
    rw [if_neg Bool.false_ne_true]
    refine ⟨?_, ?_, ?_, ?_, ?_⟩
    · rw [getCell_setCell_other _ "state" "mc.name" _ (by decide), getCell_setCell_same]
    · rw [getCell_setCell_same]
    · intro hh
      exact absurd hh Bool.false_ne_true
    · intro _
      rw [getCell_setCell_other _ "state" "statenm" _ (by decide),
        getCell_setCell_other _ "mc.name" "statenm" _ (by decide)]
    · intro c h1 h2 _
      rw [getCell_setCell_other _ "state" c _ h2, getCell_setCell_other _ "mc.name" c _ h1]
  | true =>
    rw [if_pos rfl]
    refine ⟨?_, ?_, ?_, ?_, ?_⟩
    · rw [getCell_setCell_other _ "statenm" "mc.name" _ (by decide),
        getCell_setCell_other _ "state" "mc.name" _ (by decide), getCell_setCell_same]
    · rw [getCell_setCell_other _ "statenm" "state" _ (by decide), getCell_setCell_same]
    · intro _
      rw [getCell_setCell_same]
    · intro hh
      exact absurd hh (by decide)
    · intro c h1 h2 h3
      rw [getCell_setCell_other _ "statenm" c _ h3, getCell_setCell_other _ "state" c _ h2,
        getCell_setCell_other _ "mc.name" c _ h1]

/-- Reading the updated row of Step 1 at a valid index. -/
theorem step1_row (legs : List Row) (df : DF) (i : Nat) (hi : i < df.rows.length) :
    (UpdateLegislator.step1 legs df).1.rows.getD i []
      = UpdateLegislator.updateRow legs (df.rows.getD i []) := by
  rw [(step1_spec legs df).1]
  exact getD_map_row df.rows _ i hi

/-- Row count is unchanged by the cell-wise accent-removal stage. -/
theorem applymap_rows_length (df : DF) :
    (UpdateLegislator.applymapRemoveAccents df).rows.length = df.rows.length :=
  List.length_map ..

/-- Row count is unchanged by the pruning stage, in both branches. -/
theorem step3_rows_length (df : DF) :
    (UpdateLegislator.step3 df).1.rows.length = df.rows.length := by
  unfold UpdateLegislator.step3 UpdateLegislator.dropColumn
  by_cases h : "statenm" ∈ df.cols
  · rw [if_pos h]
    exact List.length_map ..
  · rw [if_neg h]

/-- Row count is preserved end to end by the whole pipeline. -/
theorem pipeline_rows_length (df : DF) (legs : List Row) :
    (UpdateLegislator.pipelineTable df legs).1.rows.length = df.rows.length := by
  show (UpdateLegislator.step3 (UpdateLegislator.applymapRemoveAccents
      (UpdateLegislator.step1 legs df).1)).1.rows.length = df.rows.length
  rw [step3_rows_length, applymap_rows_length, (step1_spec legs df).1]
  exact List.length_map ..

/-- CLAIM C1 (counterexample): the reference table legsDup holds two
rows with the same composite key (1, 103); the lookup returns both in
table order, and the matched target row receives the bioname A of the
FIRST duplicate row, not the bioname B of the later (last) one as the
claim states. -/
theorem c1_counterexample :
    UpdateLegislator.legMatches legsDup (Value.num 1) (Value.num 103) = legsDup
    ∧ getCell (legsDup.getD 1 []) "bioname" = Value.str [0x42]
    ∧ getCell ((UpdateLegislator.step1 legsDup mcattsOne).1.rows.getD 0 []) "mc.name"
        = Value.str [0x41]
    ∧ Value.str [0x41] ≠ Value.str [0x42] := by decide

/-- CLAIM C1 (amended): when two or more reference rows share the
looked-up composite key, the target row receives its override fields
from the FIRST duplicate row in reference-table order (match.iloc[0]
in the source), not the last. -/
theorem c1_first_duplicate_wins (legs : List Row) (df : DF) (i : Nat)
    (m1 m2 : Row) (rest : List Row) (hi : i < df.rows.length)
    (hm : UpdateLegislator.legMatches legs (getCell (df.rows.getD i []) "id")
        (getCell (df.rows.getD i []) "cong") = m1 :: m2 :: rest) :
    getCell ((UpdateLegislator.step1 legs df).1.rows.getD i []) "mc.name"
        = getCell m1 "bioname"
    ∧ getCell ((UpdateLegislator.step1 legs df).1.rows.getD i []) "state"
        = getCell m1 "state_abbrev" := by
  rw [step1_row legs df i hi]
  obtain ⟨h1, h2, _⟩ := updateRow_matched legs (df.rows.getD i []) m1 (m2 :: rest) hm
  exact ⟨h1, h2⟩

/-- CLAIM C1 (witness): the amended statement applied to the duplicate
key tables, where the first duplicate carries bioname A. -/
theorem c1_witness :
    0 < mcattsOne.rows.length
    ∧ getCell ((UpdateLegislator.step1 legsDup mcattsOne).1.rows.getD 0 []) "mc.name"
        = getCell (legsDup.getD 0 []) "bioname" :=
  ⟨by decide,
    (c1_first_duplicate_wins legsDup mcattsOne 0 (legsDup.getD 0 []) (legsDup.getD 1 []) []
      (by decide) (by decide)).1⟩

/-- CLAIM C3: a target row whose composite key has no reference match
is left completely unmodified by Step 1, contributes exactly one
non-match record (identifier, period, display name) to the non-match
list, which collects exactly one record per unmatched row in row order,
and the pipeline still produces a full output table with one output row
per input row. -/
theorem c3_nonmatch_row_untouched (legs : List Row) (df : DF) (i : Nat)
    (hi : i < df.rows.length)
    (hm : UpdateLegislator.legMatches legs (getCell (df.rows.getD i []) "id")
        (getCell (df.rows.getD i []) "cong") = []) :
    (UpdateLegislator.step1 legs df).1.rows.getD i [] = df.rows.getD i []
    ∧ (UpdateLegislator.step1 legs df).2
        = df.rows.filterMap (UpdateLegislator.rowNonMatch legs)
    ∧ UpdateLegislator.rowNonMatch legs (df.rows.getD i [])
        = some (getCell (df.rows.getD i []) "id", getCell (df.rows.getD i []) "cong",
            getCell (df.rows.getD i []) "mc.name")
    ∧ (UpdateLegislator.pipelineTable df legs).1.rows.length = df.rows.length := by
  refine ⟨?_, (step1_spec legs df).2, ?_, pipeline_rows_length df legs⟩
  · rw [step1_row legs df i hi]
    simp only [UpdateLegislator.updateRow, hm]
  · simp only [UpdateLegislator.rowNonMatch, hm]

/-- CLAIM C3 (witness): the second row of mcattsTwo has key (3, 103),
absent from legsSt; the theorem applied there. -/
theorem c3_witness :
    1 < mcattsTwo.rows.length
    ∧ (UpdateLegislator.step1 legsSt mcattsTwo).1.rows.getD 1 []
        = mcattsTwo.rows.getD 1 [] :=
  ⟨by decide, (c3_nonmatch_row_untouched legsSt mcattsTwo 1 (by decide) (by decide)).1⟩

/-- CLAIM C5: on a matched target row, Step 1 overwrites exactly the
mapped columns (mc.name from bioname, state from state_abbrev, and
statenm from statenm only when the reference row carries it); every
other column of the row keeps exactly its previous value, and without
statenm in the reference row the statenm cell is untouched too. -/
theorem c5_override_frame (legs : List Row) (df : DF) (i : Nat)
    (m : Row) (rest : List Row) (hi : i < df.rows.length)
    (hm : UpdateLegislator.legMatches legs (getCell (df.rows.getD i []) "id")
        (getCell (df.rows.getD i []) "cong") = m :: rest) :
    getCell ((UpdateLegislator.step1 legs df).1.rows.getD i []) "mc.name"
        = getCell m "bioname"
    ∧ getCell ((UpdateLegislator.step1 legs df).1.rows.getD i []) "state"
        = getCell m "state_abbrev"
    ∧ (hasCol m "statenm" = true →
        getCell ((UpdateLegislator.step1 legs df).1.rows.getD i []) "statenm"
          = getCell m "statenm")
    ∧ (hasCol m "statenm" = false →
        getCell ((UpdateLegislator.step1 legs df).1.rows.getD i []) "statenm"
          = getCell (df.rows.getD i []) "statenm")
    ∧ ∀ c, c ≠ "mc.name" → c ≠ "state" → c ≠ "statenm" →
        getCell ((UpdateLegislator.step1 legs df).1.rows.getD i []) c
          = getCell (df.rows.getD i []) c := by
  rw [step1_row legs df i hi]
  exact updateRow_matched legs (df.rows.getD i []) m rest hm

/-- CLAIM C5 (witness): the first row of mcattsTwo is matched by the
single legsSt row and receives its bioname into mc.name. -/
theorem c5_witness :
    0 < mcattsTwo.rows.length
    ∧ getCell ((UpdateLegislator.step1 legsSt mcattsTwo).1.rows.getD 0 []) "mc.name"
        = getCell (legsSt.getD 0 []) "bioname" :=
  ⟨by decide,
    (c5_override_frame legsSt mcattsTwo 0 (legsSt.getD 0 []) [] (by decide) (by decide)).1⟩

/-- CLAIM C6 (counterexample): the table mcattsTwo has no statenm
column, and the standalone remove_statenm_column script warns and
returns early without producing any output table: its result is none,
not the unchanged input table as the claim states for that source. -/
theorem c6_counterexample :
    "statenm" ∉ mcattsTwo.cols
    ∧ RemoveStatenm.remove_statenm_column mcattsTwo = none
    ∧ RemoveStatenm.remove_statenm_column mcattsTwo ≠ some mcattsTwo := by decide

/-- CLAIM C6 (amended): pruning with the column present yields exactly
one fewer header column, the same row count, no statenm column left,
no warning, and every other cell of every row unchanged, with the
standalone script dropping the same table; pruning with the column
absent warns instead of erroring, the pipeline Step 3 leaving the
table unchanged while the standalone script returns early and
produces no output table at all. -/
theorem c6_prune (df : DF) (hnd : df.cols.Nodup) :
    ("statenm" ∈ df.cols →
        (UpdateLegislator.step3 df).1.cols.length + 1 = df.cols.length
        ∧ (UpdateLegislator.step3 df).1.rows.length = df.rows.length
        ∧ "statenm" ∉ (UpdateLegislator.step3 df).1.cols
        ∧ (UpdateLegislator.step3 df).2 = false
        ∧ (∀ i, i < df.rows.length → ∀ c, c ≠ "statenm" →
            getCell ((UpdateLegislator.step3 df).1.rows.getD i []) c
              = getCell (df.rows.getD i []) c)
        ∧ RemoveStatenm.remove_statenm_column df = some (UpdateLegislator.step3 df).1)
    ∧ ("statenm" ∉ df.cols →
        (UpdateLegislator.step3 df).1 = df
        ∧ (UpdateLegislator.step3 df).2 = true
        ∧ RemoveStatenm.remove_statenm_column df = none) := by
  constructor
  · intro hmem
    simp only [UpdateLegislator.step3, RemoveStatenm.remove_statenm_column, if_pos hmem]
    refine ⟨?_, List.length_map .., ?_, by trivial, ?_, by trivial⟩
    · show (df.cols.erase "statenm").length + 1 = df.cols.length
      rw [List.length_erase_of_mem hmem]
      exact Nat.sub_add_cancel (List.length_pos_of_mem hmem)
    · show "statenm" ∉ df.cols.erase "statenm"
      intro hcontra
      exact ((hnd.mem_erase_iff).mp hcontra).1 rfl
    · intro i hi c hc
      show getCell ((df.rows.map fun r => r.filter fun p => !decide (p.1 = "statenm")).getD i []) c
          = getCell (df.rows.getD i []) c
      rw [getD_map_row df.rows _ i hi]
      exact getCell_filter_other _ "statenm" c hc
  · intro hmem
    simp only [UpdateLegislator.step3, RemoveStatenm.remove_statenm_column, if_neg hmem]
    refine ⟨?_, ?_, ?_⟩ <;> trivial

/-- CLAIM C6 (witness): the theorem applied to a table carrying statenm
among three distinct columns. -/
theorem c6_witness :
    dfWithStatenm.cols.Nodup
    ∧ "statenm" ∈ dfWithStatenm.cols
    ∧ (UpdateLegislator.step3 dfWithStatenm).1.cols.length + 1
        = dfWithStatenm.cols.length :=
  ⟨by decide, by decide, ((c6_prune dfWithStatenm (by decide)).1 (by decide)).1⟩

/-- CLAIM C8: every stage is a per-row map in original row order (Step
3 either drops the statenm entry of every row or leaves the rows
unchanged), so the i-th output row comes from the i-th input row and
the pipeline output has exactly as many rows as the input. -/
theorem c8_row_order_preserved (legs : List Row) (df : DF) :
    (UpdateLegislator.step1 legs df).1.rows
        = df.rows.map (UpdateLegislator.updateRow legs)
    ∧ (∀ d : DF, (UpdateLegislator.applymapRemoveAccents d).rows
        = d.rows.map fun r => r.map fun p => (p.1, UpdateLegislator.remove_accents p.2))
    ∧ (∀ d : DF, (UpdateLegislator.step3 d).1.rows
          = d.rows.map (fun r => r.filter fun p => !decide (p.1 = "statenm"))
        ∨ (UpdateLegislator.step3 d).1.rows = d.rows)
    ∧ (UpdateLegislator.pipelineTable df legs).1.rows.length = df.rows.length := by
  refine ⟨(step1_spec legs df).1, fun d => rfl, fun d => ?_, pipeline_rows_length df legs⟩
  by_cases h : "statenm" ∈ d.cols
  · left
    simp only [UpdateLegislator.step3, if_pos h]
    rfl
  · right
    simp only [UpdateLegislator.step3, if_neg h]

/-- CLAIM C9 (counterexample): process_csv on a two-row input writes
the processed first row before reading the second row, so its trace is
not buffered-then-written, contradicting the claim that the entire
output is written only after all processing; the rows written are the
per-row accent-stripped rows. -/
theorem c9_counterexample :
    buffered (RemoveAccents.process_csv_events [[[0xC9]], [[0x41]]]) = false
    ∧ writtenRows (RemoveAccents.process_csv_events [[[0xC9]], [[0x41]]])
        = [[[0x45]], [[0x41]]] := by decide

/-- CLAIM C9 (amended): process_legislator_pipeline buffers the whole
table and its trace ends with its single write, which carries the
fully processed table, so an aborted run writes nothing; process_csv
instead streams, emitting one write per input row as it is processed. -/
theorem c9_write_discipline (mcatts : DF) (legs : List Row) (rows : List (List Str)) :
    buffered (UpdateLegislator.pipeline_events mcatts legs) = true
    ∧ (UpdateLegislator.pipeline_events mcatts legs).filter Ev.isWrite
        = [Ev.writeTable (UpdateLegislator.pipelineTable mcatts legs).1]
    ∧ RemoveAccents.process_csv_events rows
        = rows.flatMap fun r =>
            [Ev.readRow r, Ev.writeRow (r.map RemoveAccents.remove_accents)] :=
  ⟨rfl, rfl, rfl⟩

/-- CLAIM C10: starting from mcattsTwo, which has no statenm column,
the matched reference row of legsSt does carry statenm, and Step 1
appends a new statenm column to the header (a strict superset of the
input columns); the matched row 0 holds the copied value and the
unmatched row 1 reads as missing there. -/
theorem c10_statenm_column_introduced :
    "statenm" ∉ mcattsTwo.cols
    ∧ hasCol (legsSt.getD 0 []) "statenm" = true
    ∧ (UpdateLegislator.step1 legsSt mcattsTwo).1.cols = mcattsTwo.cols ++ ["statenm"]
    ∧ getCell ((UpdateLegislator.step1 legsSt mcattsTwo).1.rows.getD 0 []) "statenm"
        = Value.str [0x54, 0x58]
    ∧ getCell ((UpdateLegislator.step1 legsSt mcattsTwo).1.rows.getD 1 []) "statenm"
        = Value.missing
    ∧ UpdateLegislator.legMatches legsSt (Value.num 3) (Value.num 103) = [] := by decide

end Mcatts
